import Mathlib

/-!
Verification of the filecrypt chunked-encryption library (`src/lib.rs`,
`src/main.rs`) against its specification.

Modelling conventions, in order of appearance in the source:

* Bytes are `Nat` values; well-formedness predicates record `< 256` where a
  proof needs it.  `usize` arithmetic is modelled with debug-profile checks:
  a subtraction that would underflow and a division by zero are panics, and
  are made explicit in the definitions that contain them.
* Rust's `Result`/panic distinction is modelled by `Outcome`: `ok`, `err`
  (a `Result::Err` surfaced to the caller) and `panic` (an `unwrap()` on an
  error, an arithmetic check failure, or an out-of-range slice index).
* The AES-128-GCM cipher (`aes_gcm` crate) is modelled as an ideal AEAD with
  the same interface as `encrypt_in_place`/`decrypt_in_place`: a keystream
  mask applied byte-wise, followed by a keyed 16-byte tag computed over the
  masked body; decryption recomputes and compares the tag and fails when it
  differs.  The concrete mixing functions stand in for the AES core; lengths
  (ciphertext = plaintext + 16) and the nonce being the first 12 bytes of the
  key are exactly as in the source.
* Randomness (`Chunk::random`, `OsRng`) is an injected supply
  `Nat → Chunk`: window `i` of an encryption run uses `supply i`.
* File-system effects are an explicit event trace (`FsEvent`); the input file
  is the byte list passed to the engine, the object directory read by
  `decrypt_file` is a lookup function `String → Option (List Nat)`, and the
  reassembled output file is the `ok` value of `decrypt_file`.  Concurrency:
  workers share no state and results are consumed strictly in spawn order at
  the join point, so the fan-out/fan-in stage is modelled by the
  corresponding sequential fold over the segment list.
* The `uuid` crate's `parse_str` is modelled on its three accepted formats
  (simple, hyphenated, urn-prefixed); the `base64` crate's `encode`/`decode`
  on the standard alphabet, with decode lenient about absent padding.
-/

/-- The recoverable errors the library can return (`anyhow!` messages and the
`TryFrom<ChunkIntermediate>` error strings). -/
inductive Err where
  | chunkLenNotMultiple
  | numChunksMismatch (expected found : Nat)
  | missingObject (name : String)
  | malformedId
  | malformedKey
  | emptyInput
deriving DecidableEq

/-- Result of a fallible Rust computation: `ok`, a recoverable `Result::Err`,
or a panic (`unwrap` on an error, overflow check, slice out of range). -/
inductive Outcome (α : Type) where
  | ok (a : α)
  | err (e : Err)
  | panic
deriving DecidableEq

/-- File-system actions performed by the engines, in program order. -/
inductive FsEvent where
  | openInput
  | createDir
  | createObject (name : String)
  | writeObject (name : String) (data : List Nat)
  | createOutput
  | openObject (name : String)
  | writeOutput (data : List Nat)
deriving DecidableEq

def Outcome.isOk {α : Type} : Outcome α → Bool
  | .ok _ => true
  | _ => false

def Outcome.isErr {α : Type} : Outcome α → Bool
  | .err _ => true
  | _ => false

/-- A segment: random 128-bit identifier plus random 128-bit AES key
(`struct Chunk` in `lib.rs`), both held as 16-byte lists. -/
structure Chunk where
  id : List Nat
  key : List Nat
deriving DecidableEq

/-- The metadata record produced by encryption and consumed by decryption
(`struct Metadata` in `lib.rs`). -/
structure Metadata where
  file_len : Nat
  chunk_len : Nat
  chunks : List Chunk
deriving DecidableEq

/-- `Chunk::nonce`: the first 12 bytes of the key, reused as the GCM nonce. -/
def Chunk.nonce (c : Chunk) : List Nat := c.key.take 12

/-- Key/nonce mixing for the modelled cipher core (stands in for AES). -/
def aesMix (xs : List Nat) : Nat :=
  xs.foldl (fun a b => (a * 257 + b + 1) % 65521) 1

/-- Byte `i` of the modelled CTR keystream for a key/nonce pair. -/
def keystreamByte (key nonce : List Nat) (i : Nat) : Nat :=
  (aesMix key * 131 + aesMix nonce * 31 + i * 7 + 3) % 256

/-- XOR a byte list with the keystream starting at position `i`. -/
def maskBytes (key nonce : List Nat) : Nat → List Nat → List Nat
  | _, [] => []
  | i, b :: bs => (b ^^^ keystreamByte key nonce i) :: maskBytes key nonce (i + 1) bs

/-- The 16-byte authentication tag over the masked body (models GHASH with
empty associated data). -/
def gcmTag (key nonce body : List Nat) : List Nat :=
  (List.range 16).map fun i =>
    body.foldl (fun a b => (a * 131 + b + 7) % 65521) (keystreamByte key nonce (4096 + i)) % 256

/-- Model of `Aes128Gcm::encrypt_in_place` (never fails): masked body followed
by the 16-byte tag, so the ciphertext is 16 bytes longer than the plaintext. -/
def aesGcmEncrypt (key nonce p : List Nat) : List Nat :=
  maskBytes key nonce 0 p ++ gcmTag key nonce (maskBytes key nonce 0 p)

/-- Model of `Aes128Gcm::decrypt_in_place`: split off the trailing 16-byte
tag, verify it, and unmask; `none` is the authentication error. -/
def aesGcmDecrypt (key nonce buf : List Nat) : Option (List Nat) :=
  if buf.length < 16 then none
  else
    let body := buf.take (buf.length - 16)
    let tag := buf.drop (buf.length - 16)
    if tag = gcmTag key nonce body then some (maskBytes key nonce 0 body) else none

/-- `Chunk::encrypt`: encrypt a buffer in place under the chunk's key and
key-derived nonce, with empty associated data. -/
def Chunk.encrypt (c : Chunk) (buffer : List Nat) : List Nat :=
  aesGcmEncrypt c.key c.nonce buffer

/-- `Chunk::decrypt`: `decrypt_in_place(...).unwrap()` — an authentication
failure is not returned as an error but panics the calling thread. -/
def Chunk.decrypt (c : Chunk) (buffer : List Nat) : Outcome (List Nat) :=
  match aesGcmDecrypt c.key c.nonce buffer with
  | some p => .ok p
  | none => .panic

/-- Lowercase hex digit, as used by the uuid simple format. -/
def hexDigitChar (n : Nat) : Char :=
  Char.ofNat (if n < 10 then 48 + n else 87 + n)

/-- The two lowercase hex digits of one byte. -/
def byteHexChars (b : Nat) : List Char :=
  [hexDigitChar (b / 16), hexDigitChar (b % 16)]

/-- `Chunk::id_string`: the 32-character lowercase-hex (uuid simple) form of
the id, used as the ciphertext object's file name. -/
def Chunk.id_string (c : Chunk) : String :=
  ⟨(c.id.map byteHexChars).flatten⟩

/-- Value of a hex digit accepted by the uuid parser (either case). -/
def hexVal (ch : Char) : Option Nat :=
  let n := ch.toNat
  if 48 ≤ n ∧ n ≤ 57 then some (n - 48)
  else if 97 ≤ n ∧ n ≤ 102 then some (n - 87)
  else if 65 ≤ n ∧ n ≤ 70 then some (n - 55)
  else none

/-- Decode an even-length run of hex digits into bytes. -/
def hexPairVal : List Char → Option (List Nat)
  | [] => some []
  | [_] => none
  | a :: b :: rest =>
    match hexVal a, hexVal b, hexPairVal rest with
    | some hi, some lo, some bs => some ((hi * 16 + lo) :: bs)
    | _, _, _ => none

/-- The hyphenated uuid format: 8-4-4-4-12 hex digits. -/
def parseHyphenated (cs : List Char) : Option (List Nat) :=
  if cs.length = 36 ∧ cs.get? 8 = some '-' ∧ cs.get? 13 = some '-' ∧
      cs.get? 18 = some '-' ∧ cs.get? 23 = some '-' then
    hexPairVal (cs.take 8 ++ ((cs.drop 9).take 4 ++ ((cs.drop 14).take 4 ++
      ((cs.drop 19).take 4 ++ cs.drop 24))))
  else none

/-- Model of `Uuid::parse_str`: accepts the simple (32 hex), hyphenated
(8-4-4-4-12) and urn-prefixed forms, returning the 16 id bytes. -/
def parseUuid (s : String) : Option (List Nat) :=
  let cs := s.data
  if cs.length = 32 then hexPairVal cs
  else if cs.length = 36 then parseHyphenated cs
  else if cs.length = 45 then
    if cs.take 9 = ['u', 'r', 'n', ':', 'u', 'u', 'i', 'd', ':'] then
      parseHyphenated (cs.drop 9)
    else none
  else none

/-- Character `n` of the standard base64 alphabet. -/
def b64CharOf (n : Nat) : Char :=
  Char.ofNat (
    if n < 26 then 65 + n
    else if n < 52 then 71 + n
    else if n < 62 then n - 4
    else if n = 62 then 43 else 47)

/-- Inverse of the standard base64 alphabet. -/
def b64Val (ch : Char) : Option Nat :=
  let n := ch.toNat
  if 65 ≤ n ∧ n ≤ 90 then some (n - 65)
  else if 97 ≤ n ∧ n ≤ 122 then some (n - 71)
  else if 48 ≤ n ∧ n ≤ 57 then some (n + 4)
  else if n = 43 then some 62
  else if n = 47 then some 63
  else none

/-- Model of `base64::encode` (standard alphabet, padded). -/
def b64encodeList : List Nat → List Char
  | a :: b :: c :: rest =>
    b64CharOf (a / 4) :: b64CharOf ((a % 4) * 16 + b / 16) ::
      b64CharOf ((b % 16) * 4 + c / 64) :: b64CharOf (c % 64) :: b64encodeList rest
  | [a, b] => [b64CharOf (a / 4), b64CharOf ((a % 4) * 16 + b / 16), b64CharOf ((b % 16) * 4), '=']
  | [a] => [b64CharOf (a / 4), b64CharOf ((a % 4) * 16), '=', '=']
  | [] => []

/-- Model of `base64::decode` (standard alphabet): groups of four symbols,
with the final group either padded with `=` or left short; a misplaced pad
character, an alien symbol or a length of 1 mod 4 is a decode error. -/
def b64decodeList : List Char → Option (List Nat)
  | [] => some []
  | c1 :: c2 :: c3 :: c4 :: rest =>
    if rest.isEmpty then
      if c3 = '=' ∧ c4 = '=' then
        match b64Val c1, b64Val c2 with
        | some x, some y => some [x * 4 + y / 16]
        | _, _ => none
      else if c4 = '=' then
        match b64Val c1, b64Val c2, b64Val c3 with
        | some x, some y, some z => some [x * 4 + y / 16, (y % 16) * 16 + z / 4]
        | _, _, _ => none
      else
        match b64Val c1, b64Val c2, b64Val c3, b64Val c4 with
        | some x, some y, some z, some w =>
          some [x * 4 + y / 16, (y % 16) * 16 + z / 4, (z % 4) * 64 + w]
        | _, _, _, _ => none
    else
      match b64Val c1, b64Val c2, b64Val c3, b64Val c4, b64decodeList rest with
      | some x, some y, some z, some w, some bs =>
        some ((x * 4 + y / 16) :: ((y % 16) * 16 + z / 4) :: ((z % 4) * 64 + w) :: bs)
      | _, _, _, _, _ => none
  | [c1, c2] =>
    match b64Val c1, b64Val c2 with
    | some x, some y => some [x * 4 + y / 16]
    | _, _ => none
  | [c1, c2, c3] =>
    match b64Val c1, b64Val c2, b64Val c3 with
    | some x, some y, some z => some [x * 4 + y / 16, (y % 16) * 16 + z / 4]
    | _, _, _ => none
  | _ => none

/-- `base64::decode` on a string. -/
def b64decode (s : String) : Option (List Nat) :=
  b64decodeList s.data

/-- `Chunk::key_string`: the base64 form of the key. -/
def Chunk.key_string (c : Chunk) : String :=
  ⟨b64encodeList c.key⟩

/-- The textual per-segment record carried by serialized metadata
(`struct ChunkIntermediate`). -/
structure ChunkIntermediate where
  id : String
  key : String
deriving DecidableEq

/-- `From<Chunk> for ChunkIntermediate`. -/
def Chunk.intermediate (c : Chunk) : ChunkIntermediate :=
  ⟨c.id_string, c.key_string⟩

/-- `TryFrom<ChunkIntermediate> for Chunk`: a uuid parse failure or a base64
decode failure is a recoverable error; a key that decodes to a length other
than 16 hits `Key::from_slice`, which panics. -/
def chunk_try_from (ci : ChunkIntermediate) : Outcome Chunk :=
  match parseUuid ci.id with
  | none => .err .malformedId
  | some idb =>
    match b64decode ci.key with
    | none => .err .malformedKey
    | some kb => if kb.length = 16 then .ok ⟨idb, kb⟩ else .panic

/-- The serialized text form of a metadata record: the two lengths plus the
ordered `(id, key)` text pairs.  The serde wire format transports exactly
these fields, so the round-trip content is the `ChunkIntermediate`
conversion, which is what is modelled. -/
structure MetadataText where
  file_len : Nat
  chunk_len : Nat
  chunks : List ChunkIntermediate
deriving DecidableEq

/-- Serialization of `Metadata` (the `Serialize` derive plus
`#[serde(into = "ChunkIntermediate")]` on each chunk). -/
def Metadata.serialize (m : Metadata) : MetadataText :=
  ⟨m.file_len, m.chunk_len, m.chunks.map Chunk.intermediate⟩

/-- Parse the ordered chunk records, stopping at the first failure. -/
def parseChunkList : List ChunkIntermediate → Outcome (List Chunk)
  | [] => .ok []
  | ci :: rest =>
    match chunk_try_from ci with
    | .ok c =>
      match parseChunkList rest with
      | .ok cs => .ok (c :: cs)
      | .err e => .err e
      | .panic => .panic
    | .err e => .err e
    | .panic => .panic

/-- Deserialization of `Metadata` (the `Deserialize` derive plus
`#[serde(try_from = "ChunkIntermediate")]` on each chunk). -/
def MetadataText.parse (t : MetadataText) : Outcome Metadata :=
  match parseChunkList t.chunks with
  | .ok cs => .ok ⟨t.file_len, t.chunk_len, cs⟩
  | .err e => .err e
  | .panic => .panic

/-- `check_chunk_len`: the chunk length must be a multiple of 16. -/
def check_chunk_len (chunk_len : Nat) : Outcome Unit :=
  if chunk_len % 16 = 0 then .ok () else .err .chunkLenNotMultiple

/-- The expected-count formula of `check_num_chunks`:
`(file_len + chunk_len - 16) / (chunk_len - 16)` in `usize` arithmetic. -/
def numChunksExpected (file_len chunk_len : Nat) : Nat :=
  (file_len + chunk_len - 16) / (chunk_len - 16)

/-- `check_num_chunks`: `usize` evaluation of
`(file_len + chunk_len - 16) / (chunk_len - 16)` followed by the comparison.
The numerator underflows (panic) when `file_len + chunk_len < 16`, the
divisor underflows when `chunk_len < 16`, and `chunk_len = 16` divides by
zero (panic). -/
def check_num_chunks (file_len chunk_len num_chunks : Nat) : Outcome Unit :=
  if file_len + chunk_len < 16 then .panic
  else if chunk_len < 16 then .panic
  else if chunk_len = 16 then .panic
  else if num_chunks ≠ numChunksExpected file_len chunk_len then
    .err (.numChunksMismatch (numChunksExpected file_len chunk_len) num_chunks)
  else .ok ()

/-- The successive non-empty `chunk_len`-byte windows `encrypt_file` reads;
with `chunk_len = 0` the `take(0).read_to_end` reads nothing and the loop
breaks at once.  The fuel argument (started at the input length, which each
step strictly exceeds in consumption) only makes the recursion structural;
the zero-fuel case is unreachable. -/
def chunkWindowsAux (chunk_len : Nat) : Nat → List Nat → List (List Nat)
  | _, [] => []
  | 0, _ :: _ => []
  | fuel + 1, b :: bs =>
    if chunk_len = 0 then []
    else (b :: bs).take chunk_len :: chunkWindowsAux chunk_len fuel ((b :: bs).drop chunk_len)

def chunkWindows (chunk_len : Nat) (bs : List Nat) : List (List Nat) :=
  chunkWindowsAux chunk_len bs.length bs

/-- Zero-pad a window up to `chunk_len` bytes
(the `for _ in num_bytes..chunk_len` push loop). -/
def padWindow (chunk_len : Nat) (w : List Nat) : List Nat :=
  w ++ List.replicate (chunk_len - w.length) 0

/-- `encrypt_file` (chunked encryption).  The input file is `input`, the
randomness source is `supply` (window `i` gets `supply i`), and the returned
trace lists the file-system actions in program order.  Worker threads share
nothing and are all joined before returning, so the fan-out is modelled by
the per-window sequence of writes. -/
def encrypt_file (input : List Nat) (supply : Nat → Chunk) (chunk_len : Nat) :
    Outcome Metadata × List FsEvent :=
  match check_chunk_len chunk_len with
  | .err e => (.err e, [])
  | .panic => (.panic, [])
  | .ok _ =>
    let ws := chunkWindows chunk_len input
    let cs := (List.range ws.length).map supply
    let file_len := (ws.map List.length).foldl (· + ·) 0
    let objs := List.zipWith (fun c w => (Chunk.id_string c, c.encrypt (padWindow chunk_len w))) cs ws
    (.ok ⟨file_len, chunk_len, cs⟩,
      FsEvent.openInput :: FsEvent.createDir ::
        (objs.map fun o => [FsEvent.createObject o.1, FsEvent.writeObject o.1 o.2]).flatten)

/-- `encrypt_file_unchunked`: read the whole file, zero-pad to the next
multiple of 16, encrypt as one segment; the metadata's `chunk_len` is
`buffer.len() + 16`, the ciphertext object length. -/
def encrypt_file_unchunked (input : List Nat) (supply : Nat → Chunk) :
    Outcome Metadata × List FsEvent :=
  let file_len := input.length
  let chunk := supply 0
  let num_padding_bytes := if file_len % 16 = 0 then 0 else 16 - file_len % 16
  let buffer := input ++ List.replicate num_padding_bytes 0
  let chunk_len := buffer.length + 16
  let obj := chunk.encrypt buffer
  (.ok ⟨file_len, chunk_len, [chunk]⟩,
    [FsEvent.openInput, FsEvent.createDir,
     FsEvent.createObject chunk.id_string, FsEvent.writeObject chunk.id_string obj])

/-- The body of one decryption worker: open the object named by the chunk's
id (a missing object is an I/O error returned through the join), read it and
`Chunk::decrypt` it (authentication failure panics the worker). -/
def threadResult (store : String → Option (List Nat)) (c : Chunk) : Outcome (List Nat) :=
  match store c.id_string with
  | none => .err (.missingObject c.id_string)
  | some buf => c.decrypt buf

/-- `last_len` in `decrypt_file`: the true byte count of the final segment,
recovered from `file_len % chunk_len`. -/
def lastLen (file_len chunk_len : Nat) : Nat :=
  let remainder := file_len % chunk_len
  if remainder = 0 then chunk_len else remainder

/-- The join-and-write loop of `decrypt_file`, consuming worker results in
spawn order: every slice but the last is written in full (`&data[..]`), the
last is `&data[..last_len]`, which panics when the decrypted data is shorter
than `last_len`.  A worker's error propagates at its join (`?`); a worker's
panic re-raises at its join (`join().unwrap()`).  The empty case mirrors the
`threads.len() - 1` underflow and is unreachable after `check_num_chunks`. -/
def writeSlices : List (Outcome (List Nat)) → Nat → Outcome (List (List Nat))
  | [], _ => .panic
  | [r], last_len =>
    match r with
    | .ok data => if last_len ≤ data.length then .ok [data.take last_len] else .panic
    | .err e => .err e
    | .panic => .panic
  | r :: s :: rest, last_len =>
    match r with
    | .ok data =>
      match writeSlices (s :: rest) last_len with
      | .ok tail => .ok (data :: tail)
      | .err e => .err e
      | .panic => .panic
    | .err e => .err e
    | .panic => .panic

/-- `decrypt_file`: validate the chunk length and the segment count (before
any I/O), open the output file, run one worker per segment against the
object directory `store`, and reassemble the output in metadata order.  The
`ok` value is the final content of the output file; the trace lists the
opens and the writes that a fully successful run performs. -/
def decrypt_file (store : String → Option (List Nat)) (m : Metadata) :
    Outcome (List Nat) × List FsEvent :=
  match check_chunk_len m.chunk_len with
  | .err e => (.err e, [])
  | .panic => (.panic, [])
  | .ok _ =>
    match check_num_chunks m.file_len m.chunk_len m.chunks.length with
    | .err e => (.err e, [])
    | .panic => (.panic, [])
    | .ok _ =>
      let results := m.chunks.map (threadResult store)
      let last_len := lastLen m.file_len m.chunk_len
      let evs := FsEvent.createOutput :: m.chunks.map fun c => FsEvent.openObject c.id_string
      match writeSlices results last_len with
      | .ok slices => (.ok slices.flatten, evs ++ slices.map FsEvent.writeOutput)
      | .err e => (.err e, evs)
      | .panic => (.panic, evs)

/-- The encryption half of `run` in `main.rs`: the CLI rejects a zero-length
input file before calling either library entry point. -/
def runEncrypt (input : List Nat) (supply : Nat → Chunk) (chunk_len : Option Nat) :
    Outcome Metadata × List FsEvent :=
  if input.length = 0 then (.err .emptyInput, [])
  else
    match chunk_len with
    | some cl => encrypt_file input supply cl
    | none => encrypt_file_unchunked input supply

/-- The ciphertext objects recorded in a trace. -/
def writtenObjects (evs : List FsEvent) : List (String × List Nat) :=
  evs.filterMap fun e =>
    match e with
    | .writeObject n d => some (n, d)
    | _ => none

/-- The object directory an encryption trace leaves behind. -/
def storeOfEvents (evs : List FsEvent) : String → Option (List Nat) :=
  fun n => ((writtenObjects evs).find? fun p => p.1 == n).map Prod.snd

/-- A fixed deterministic chunk supply used by concrete instances: chunk `i`
has a distinct 16-byte id and a 16-byte key. -/
def chunkOfIdx (i : Nat) : Chunk :=
  ⟨List.replicate 15 1 ++ [i % 256], List.replicate 15 2 ++ [(i + 5) % 256]⟩

theorem length_maskBytes (key nonce : List Nat) :
    ∀ (i : Nat) (p : List Nat), (maskBytes key nonce i p).length = p.length := by
  intro i p
  induction p generalizing i with
  | nil => rfl
  | cons b bs ih => simp [maskBytes, ih]

theorem length_gcmTag (key nonce body : List Nat) : (gcmTag key nonce body).length = 16 := by
  simp [gcmTag]

theorem length_aesGcmEncrypt (key nonce p : List Nat) :
    (aesGcmEncrypt key nonce p).length = p.length + 16 := by
  simp [aesGcmEncrypt, length_maskBytes, length_gcmTag]

theorem length_chunk_encrypt (c : Chunk) (p : List Nat) :
    (c.encrypt p).length = p.length + 16 := by
  simp [Chunk.encrypt, length_aesGcmEncrypt]

/-- C7: `encrypt_chunked` with a segment length that is not a multiple of 16
fails the `check_chunk_len` validation and performs no I/O at all: the trace
is empty, so the input is never opened, the output directory is never
created, and no ciphertext object is written. -/
theorem c7_invalid_chunk_len_no_io (input : List Nat) (supply : Nat → Chunk)
    (chunk_len : Nat) (h : chunk_len % 16 ≠ 0) :
    encrypt_file input supply chunk_len = (.err .chunkLenNotMultiple, []) := by
  simp [encrypt_file, check_chunk_len, h]

theorem c7_witness :
    (17 : Nat) % 16 ≠ 0 ∧
      encrypt_file (List.replicate 5 1) chunkOfIdx 17 = (.err .chunkLenNotMultiple, []) :=
  ⟨by decide, c7_invalid_chunk_len_no_io (List.replicate 5 1) chunkOfIdx 17 (by decide)⟩

/-- C8 counterexample: on a zero-length input both library encryption
operations succeed and return a `Metadata` value — `encrypt_file` with an
empty segment list and `encrypt_file_unchunked` with one segment — instead
of failing with a validation error as the claim states. -/
theorem c8_counterexample :
    (encrypt_file [] chunkOfIdx 32).1 = Outcome.ok ⟨0, 32, []⟩ ∧
      (encrypt_file_unchunked [] chunkOfIdx).1 = Outcome.ok ⟨0, 16, [chunkOfIdx 0]⟩ := by
  constructor <;> decide

/-- C8 (amended): the zero-length check lives in the CLI driver (`run` in
`main.rs`), which rejects an empty input file with a validation error before
invoking either encryption operation, hence before any I/O. -/
theorem c8_cli_rejects_empty_input (input : List Nat) (supply : Nat → Chunk)
    (chunk_len : Option Nat) (h : input.length = 0) :
    runEncrypt input supply chunk_len = (.err .emptyInput, []) := by
  simp [runEncrypt, h]

theorem c8_witness :
    ([] : List Nat).length = 0 ∧ runEncrypt [] chunkOfIdx (some 32) = (.err .emptyInput, []) :=
  ⟨rfl, c8_cli_rejects_empty_input [] chunkOfIdx (some 32) rfl⟩

/-- C10: with `chunk_len = 16` (which passes the multiple-of-16 check) the
divisor `chunk_len - 16` of `check_num_chunks` is zero, so `decrypt_file`
panics with a division by zero before any I/O instead of returning a
validation error; the divisor is nonzero only when `chunk_len > 16`. -/
theorem c10_chunk_len_16_panics (store : String → Option (List Nat)) (m : Metadata)
    (h : m.chunk_len = 16) :
    decrypt_file store m = (Outcome.panic, []) ∧
      check_num_chunks m.file_len m.chunk_len m.chunks.length = Outcome.panic := by
  have hnum : check_num_chunks m.file_len 16 m.chunks.length = Outcome.panic := by
    unfold check_num_chunks
    rw [if_neg (by omega), if_neg (by omega), if_pos rfl]
  constructor
  · simp [decrypt_file, h, check_chunk_len, hnum]
  · rw [h]; exact hnum

theorem c10_witness :
    (Metadata.mk 5 16 [chunkOfIdx 1, chunkOfIdx 2]).chunk_len = 16 ∧
      decrypt_file (fun _ => none) ⟨5, 16, [chunkOfIdx 1, chunkOfIdx 2]⟩ = (Outcome.panic, []) ∧
      check_num_chunks 5 16 2 = Outcome.panic := by
  refine ⟨rfl, ?_, ?_⟩
  · exact (c10_chunk_len_16_panics (fun _ => none) ⟨5, 16, [chunkOfIdx 1, chunkOfIdx 2]⟩ rfl).1
  · exact (c10_chunk_len_16_panics (fun _ => none) ⟨5, 16, [chunkOfIdx 1, chunkOfIdx 2]⟩ rfl).2

/-- C2 counterexample: the claim quantifies over every `Metadata` value, but
at `chunk_len = 16` the expected-count division divides by zero, so
`decrypt_file` panics instead of failing with (or without) a validation
error. -/
theorem c2_counterexample :
    (decrypt_file (fun _ => none) ⟨1, 16, [chunkOfIdx 3]⟩).1 = Outcome.panic ∧
      (decrypt_file (fun _ => none) ⟨1, 16, [chunkOfIdx 3]⟩).1.isErr = false := by
  constructor <;> decide

/-- C2 (amended): for every metadata whose `chunk_len` is a multiple of 16
greater than 16, `decrypt_file` fails with the segment-count validation
error — with an empty trace, i.e. before any file is opened, created, read
or written — exactly when the segment-list length differs from
`(file_len + chunk_len - 16) / (chunk_len - 16)`. -/
theorem c2_count_mismatch_iff (store : String → Option (List Nat)) (m : Metadata)
    (h16 : m.chunk_len % 16 = 0) (hgt : 16 < m.chunk_len) :
    (decrypt_file store m =
        (.err (.numChunksMismatch (numChunksExpected m.file_len m.chunk_len) m.chunks.length), [])
      ↔ m.chunks.length ≠ numChunksExpected m.file_len m.chunk_len) := by
  have hck : check_chunk_len m.chunk_len = .ok () := by simp [check_chunk_len, h16]
  constructor
  · intro h hc
    have hnum : check_num_chunks m.file_len m.chunk_len m.chunks.length = .ok () := by
      unfold check_num_chunks
      rw [if_neg (by omega), if_neg (by omega), if_neg (by omega), if_neg (by simpa using hc)]
    simp only [decrypt_file, hck, hnum] at h
    cases hws : writeSlices (m.chunks.map (threadResult store)) (lastLen m.file_len m.chunk_len) with
    | ok slices => rw [hws] at h; simp at h
    | err e => rw [hws] at h; simp at h
    | panic => rw [hws] at h; simp at h
  · intro hne
    have hnum : check_num_chunks m.file_len m.chunk_len m.chunks.length =
        .err (.numChunksMismatch (numChunksExpected m.file_len m.chunk_len) m.chunks.length) := by
      unfold check_num_chunks
      rw [if_neg (by omega), if_neg (by omega), if_neg (by omega), if_pos hne]
    simp [decrypt_file, hck, hnum]

theorem c2_witness :
    (32 : Nat) % 16 = 0 ∧ (16 : Nat) < 32 ∧
      decrypt_file (fun _ => none) ⟨50, 32, [chunkOfIdx 4]⟩ =
        (.err (.numChunksMismatch (numChunksExpected 50 32) 1), []) :=
  ⟨by decide, by decide,
    (c2_count_mismatch_iff (fun _ => none) ⟨50, 32, [chunkOfIdx 4]⟩ (by decide) (by decide)).mpr
      (by decide)⟩

/-- C3 counterexample: for the 10-byte file of the claim's concrete scenario,
`encrypt_file_unchunked` returns `chunk_len = 32` — the padded plaintext
length plus the 16-byte tag, i.e. the ciphertext object length — not the
padded plaintext length 16 the claim states. -/
theorem c3_counterexample :
    (encrypt_file_unchunked (List.replicate 10 9) chunkOfIdx).1 =
        Outcome.ok ⟨10, 32, [chunkOfIdx 0]⟩ ∧
      Metadata.mk 10 32 [chunkOfIdx 0] ≠ Metadata.mk 10 16 [chunkOfIdx 0] := by
  constructor <;> decide

/-- C3 (amended): for every non-empty input, `encrypt_file_unchunked` pads
the buffer to the next multiple of 16, returns metadata with exactly one
segment and `chunk_len` equal to the padded length plus 16 (the ciphertext
object length), and writes exactly one ciphertext object of that length; for
a 10-byte file this gives `file_len = 10`, `chunk_len = 32` and a 32-byte
object. -/
theorem c3_unchunked_shape (input : List Nat) (supply : Nat → Chunk) (h : input ≠ []) :
    (encrypt_file_unchunked input supply).1 =
        Outcome.ok ⟨input.length,
          input.length + (if input.length % 16 = 0 then 0 else 16 - input.length % 16) + 16,
          [supply 0]⟩ ∧
      writtenObjects (encrypt_file_unchunked input supply).2 =
        [(Chunk.id_string (supply 0),
          Chunk.encrypt (supply 0)
            (input ++ List.replicate (if input.length % 16 = 0 then 0 else 16 - input.length % 16) 0))] ∧
      (Chunk.encrypt (supply 0)
          (input ++ List.replicate (if input.length % 16 = 0 then 0 else 16 - input.length % 16) 0)).length =
        input.length + (if input.length % 16 = 0 then 0 else 16 - input.length % 16) + 16 ∧
      (input.length + (if input.length % 16 = 0 then 0 else 16 - input.length % 16)) % 16 = 0 := by
  refine ⟨?_, ?_, ?_, ?_⟩
  · simp [encrypt_file_unchunked]
  · simp [encrypt_file_unchunked, writtenObjects]
  · simp [length_chunk_encrypt]
  · rcases eq_or_ne (input.length % 16) 0 with h0 | h0 <;> simp [h0] <;> omega

theorem c3_witness :
    List.replicate 10 9 ≠ ([] : List Nat) ∧
      (encrypt_file_unchunked (List.replicate 10 9) chunkOfIdx).1 =
        Outcome.ok ⟨10, 32, [chunkOfIdx 0]⟩ ∧
      writtenObjects (encrypt_file_unchunked (List.replicate 10 9) chunkOfIdx).2 =
        [(Chunk.id_string (chunkOfIdx 0),
          Chunk.encrypt (chunkOfIdx 0) (List.replicate 10 9 ++ List.replicate 6 0))] ∧
      (Chunk.encrypt (chunkOfIdx 0) (List.replicate 10 9 ++ List.replicate 6 0)).length = 32 := by
  have h := c3_unchunked_shape (List.replicate 10 9) chunkOfIdx (by decide)
  refine ⟨by decide, ?_, ?_, ?_⟩
  · simpa using h.1
  · simpa using h.2.1
  · simpa using h.2.2.1

theorem writeSlices_ok_mem :
    ∀ (rs : List (Outcome (List Nat))) (l : Nat) (ss : List (List Nat)),
      writeSlices rs l = .ok ss → ∀ r ∈ rs, ∃ d, r = .ok d := by
  intro rs
  induction rs with
  | nil => intro l ss h; simp [writeSlices] at h
  | cons r rest ih =>
    intro l ss h r' hr'
    cases rest with
    | nil =>
      rw [List.mem_singleton] at hr'
      subst hr'
      cases r' with
      | ok data => exact ⟨data, rfl⟩
      | err e => simp [writeSlices] at h
      | panic => simp [writeSlices] at h
    | cons s rest' =>
      cases r with
      | ok data =>
        rcases List.mem_cons.mp hr' with rfl | hmem
        · exact ⟨data, rfl⟩
        · cases hws : writeSlices (s :: rest') l with
          | ok tail => exact ih l tail hws r' hmem
          | err e => rw [writeSlices, hws] at h; simp at h
          | panic => rw [writeSlices, hws] at h; simp at h
      | err e => simp [writeSlices] at h
      | panic => simp [writeSlices] at h

theorem writeSlices_err_mem :
    ∀ (rs : List (Outcome (List Nat))) (l : Nat) (e : Err),
      writeSlices rs l = .err e → Outcome.err e ∈ rs := by
  intro rs
  induction rs with
  | nil => intro l e h; simp [writeSlices] at h
  | cons r rest ih =>
    intro l e h
    cases rest with
    | nil =>
      cases r with
      | ok data =>
        rw [writeSlices] at h
        split at h <;> simp at h
      | err e' =>
        rw [writeSlices] at h
        simp at h
        simp [h]
      | panic => simp [writeSlices] at h
    | cons s rest' =>
      cases r with
      | ok data =>
        cases hws : writeSlices (s :: rest') l with
        | ok tail => rw [writeSlices, hws] at h; simp at h
        | err e' =>
          rw [writeSlices, hws] at h
          simp at h
          subst h
          exact List.mem_cons_of_mem _ (ih l e' hws)
        | panic => rw [writeSlices, hws] at h; simp at h
      | err e' =>
        rw [writeSlices] at h
        simp at h
        simp [h]
      | panic => simp [writeSlices] at h

/-- C4 (amended): when any segment's stored ciphertext is present but fails
authentication, the whole `decrypt_file` operation fails — the worker's
`unwrap` panic propagates through `join().unwrap()` — so decryption never
returns plaintext for a tampered or wrong-key object. -/
theorem c4_auth_failure_aborts (store : String → Option (List Nat)) (m : Metadata)
    (c : Chunk) (buf : List Nat) (hc : c ∈ m.chunks)
    (hbuf : store c.id_string = some buf)
    (hauth : aesGcmDecrypt c.key c.nonce buf = none) :
    (decrypt_file store m).1.isOk = false := by
  have hres : threadResult store c = Outcome.panic := by
    simp [threadResult, hbuf, Chunk.decrypt, hauth]
  unfold decrypt_file
  cases hck : check_chunk_len m.chunk_len with
  | err e => simp [Outcome.isOk]
  | panic => simp [Outcome.isOk]
  | ok u =>
    cases hnum : check_num_chunks m.file_len m.chunk_len m.chunks.length with
    | err e => simp [Outcome.isOk]
    | panic => simp [Outcome.isOk]
    | ok u' =>
      cases hws : writeSlices (m.chunks.map (threadResult store)) (lastLen m.file_len m.chunk_len) with
      | ok slices =>
        exfalso
        have hmem : threadResult store c ∈ m.chunks.map (threadResult store) :=
          List.mem_map_of_mem _ hc
        obtain ⟨d, hd⟩ := writeSlices_ok_mem _ _ _ hws _ hmem
        rw [hres] at hd
        exact Outcome.noConfusion hd
      | err e => simp [hws, Outcome.isOk]
      | panic => simp [hws, Outcome.isOk]

/-- The concrete tampered setup for the C4 counterexample: a valid ciphertext
object for a 32-byte padded segment with the low bit of its final tag byte
flipped. -/
def tamperChunk : Chunk := chunkOfIdx 2

def tamperGood : List Nat := tamperChunk.encrypt (List.replicate 20 4 ++ List.replicate 12 0)

def tamperBad : List Nat := tamperGood.take 47 ++ [tamperGood.getD 47 0 ^^^ 1]

def tamperStore : String → Option (List Nat) :=
  fun n => if n == tamperChunk.id_string then some tamperBad else none

set_option maxRecDepth 8000 in
/-- C4 counterexample: on a one-bit-flipped ciphertext object the
authentication tag does not verify, and `decrypt_file` does not fail with an
error value surfaced to the caller — `Chunk::decrypt` unwraps the
authentication error, so the operation panics. -/
theorem c4_counterexample :
    aesGcmDecrypt tamperChunk.key tamperChunk.nonce tamperBad = none ∧
      (decrypt_file tamperStore ⟨20, 48, [tamperChunk]⟩).1 = Outcome.panic ∧
      (decrypt_file tamperStore ⟨20, 48, [tamperChunk]⟩).1.isErr = false := by
  refine ⟨by decide, by decide, by decide⟩

/-- A second tampered setup (body byte flipped) used to instantiate the
amended C4 theorem. -/
def tamperChunk2 : Chunk := chunkOfIdx 6

def tamperBad2 : List Nat :=
  ((tamperChunk2.encrypt (List.replicate 32 11)).getD 0 0 ^^^ 128) ::
    (tamperChunk2.encrypt (List.replicate 32 11)).drop 1

def tamperStore2 : String → Option (List Nat) :=
  fun n => if n == tamperChunk2.id_string then some tamperBad2 else none

set_option maxRecDepth 8000 in
theorem c4_witness :
    tamperChunk2 ∈ ([tamperChunk2] : List Chunk) ∧
      tamperStore2 tamperChunk2.id_string = some tamperBad2 ∧
      aesGcmDecrypt tamperChunk2.key tamperChunk2.nonce tamperBad2 = none ∧
      (decrypt_file tamperStore2 ⟨30, 48, [tamperChunk2]⟩).1.isOk = false :=
  ⟨by decide, by decide, by decide,
    c4_auth_failure_aborts tamperStore2 ⟨30, 48, [tamperChunk2]⟩ tamperChunk2 tamperBad2
      (by decide) (by decide) (by decide)⟩

theorem getLastD_irrel {α : Type} (l : List α) (h : l ≠ []) (d1 d2 : α) :
    l.getLastD d1 = l.getLastD d2 := by
  cases l with
  | nil => cases h rfl
  | cons a t => rfl

theorem writeSlices_all_ok (l : Nat) :
    ∀ (datas : List (List Nat)), datas ≠ [] →
      l ≤ (datas.getLastD []).length →
      writeSlices (datas.map Outcome.ok) l =
        .ok (datas.dropLast ++ [(datas.getLastD []).take l]) := by
  intro datas
  induction datas with
  | nil => intro h; cases h rfl
  | cons d rest ih =>
    intro _ hlast
    cases rest with
    | nil =>
      have hd : ([d] : List (List Nat)).getLastD [] = d := rfl
      rw [hd] at hlast
      simp [writeSlices, hlast]
    | cons e rest' =>
      have hlast' : l ≤ ((e :: rest').getLastD []).length := by
        have : (d :: e :: rest').getLastD [] = (e :: rest').getLastD [] := by
          rw [List.getLastD_cons, getLastD_irrel (e :: rest') (by simp) d []]
        rwa [this] at hlast
      have hrec := ih (by simp) hlast'
      have hgl : (d :: e :: rest').getLastD [] = (e :: rest').getLastD [] := by
        rw [List.getLastD_cons, getLastD_irrel (e :: rest') (by simp) d []]
      simp only [List.map_cons] at hrec ⊢
      rw [writeSlices, hrec]
      simp [hgl]

/-- C5: whenever validation passes and every worker decrypts its object
(segment `i` yielding plaintext `datas i`), `decrypt_file` writes the
segments in their original metadata order: every segment except the last in
full, the last truncated to `last_len`, where `last_len` is `chunk_len` when
`file_len % chunk_len = 0` and `file_len % chunk_len` otherwise. -/
theorem c5_ordered_truncated_reassembly (store : String → Option (List Nat)) (m : Metadata)
    (datas : List (List Nat))
    (hck : check_chunk_len m.chunk_len = .ok ())
    (hnum : check_num_chunks m.file_len m.chunk_len m.chunks.length = .ok ())
    (hdec : m.chunks.map (threadResult store) = datas.map Outcome.ok)
    (hne : datas ≠ [])
    (hlast : lastLen m.file_len m.chunk_len ≤ (datas.getLastD []).length) :
    (decrypt_file store m).1 =
        .ok ((datas.dropLast ++
          [(datas.getLastD []).take (lastLen m.file_len m.chunk_len)]).flatten) ∧
      lastLen m.file_len m.chunk_len =
        (if m.file_len % m.chunk_len = 0 then m.chunk_len else m.file_len % m.chunk_len) := by
  constructor
  · simp only [decrypt_file, hck, hnum, hdec,
      writeSlices_all_ok (lastLen m.file_len m.chunk_len) datas hne hlast]
  · rfl

set_option maxRecDepth 8000 in
theorem c5_witness :
    check_chunk_len 32 = .ok () ∧
      check_num_chunks 10 32 1 = .ok () ∧
      [chunkOfIdx 7].map
          (threadResult fun n =>
            if n == (chunkOfIdx 7).id_string then
              some ((chunkOfIdx 7).encrypt (List.replicate 10 3 ++ List.replicate 22 0))
            else none) =
        [List.replicate 10 3 ++ List.replicate 22 0].map Outcome.ok ∧
      (decrypt_file
          (fun n =>
            if n == (chunkOfIdx 7).id_string then
              some ((chunkOfIdx 7).encrypt (List.replicate 10 3 ++ List.replicate 22 0))
            else none)
          ⟨10, 32, [chunkOfIdx 7]⟩).1 =
        .ok ((([List.replicate 10 3 ++ List.replicate 22 0] : List (List Nat)).dropLast ++
          [((([List.replicate 10 3 ++ List.replicate 22 0] : List (List Nat)).getLastD []).take
            (lastLen 10 32))]).flatten) :=
  ⟨by decide, by decide, by decide,
    (c5_ordered_truncated_reassembly
      (fun n =>
        if n == (chunkOfIdx 7).id_string then
          some ((chunkOfIdx 7).encrypt (List.replicate 10 3 ++ List.replicate 22 0))
        else none)
      ⟨10, 32, [chunkOfIdx 7]⟩ [List.replicate 10 3 ++ List.replicate 22 0]
      (by decide) (by decide) (by decide) (by decide) (by decide)).1⟩

theorem hexVal_hexDigitChar : ∀ n, n < 16 → hexVal (hexDigitChar n) = some n := by
  decide

theorem length_hexChars (bs : List Nat) :
    ((bs.map byteHexChars).flatten).length = 2 * bs.length := by
  induction bs with
  | nil => rfl
  | cons b rest ih => simp [byteHexChars, ih]; omega

theorem hexPairVal_hexChars :
    ∀ (bs : List Nat), (∀ b ∈ bs, b < 256) →
      hexPairVal ((bs.map byteHexChars).flatten) = some bs := by
  intro bs
  induction bs with
  | nil => intro _; rfl
  | cons b rest ih =>
    intro h
    have hb : b < 256 := h b (List.mem_cons_self b rest)
    have h1 : hexVal (hexDigitChar (b / 16)) = some (b / 16) :=
      hexVal_hexDigitChar (b / 16) (by omega)
    have h2 : hexVal (hexDigitChar (b % 16)) = some (b % 16) :=
      hexVal_hexDigitChar (b % 16) (by omega)
    have hrest := ih fun x hx => h x (List.mem_cons_of_mem _ hx)
    simp only [List.map_cons, List.flatten_cons, byteHexChars, List.cons_append,
      List.nil_append, hexPairVal, h1, h2, hrest]
    have hbeq : b / 16 * 16 + b % 16 = b := by omega
    simp [hrest, hbeq]

theorem parseUuid_id_string (c : Chunk) (hlen : c.id.length = 16)
    (hb : ∀ b ∈ c.id, b < 256) :
    parseUuid c.id_string = some c.id := by
  have h32 : ((c.id.map byteHexChars).flatten).length = 32 := by
    rw [length_hexChars, hlen]
  simp only [parseUuid, Chunk.id_string, h32, if_pos rfl]
  exact hexPairVal_hexChars c.id hb

theorem b64Val_b64CharOf : ∀ n, n < 64 → b64Val (b64CharOf n) = some n := by
  decide

theorem b64CharOf_lt_ne_pad : ∀ n, n < 64 → b64CharOf n ≠ '=' := by
  decide

theorem b64CharOf_ne_pad (n : Nat) : b64CharOf n ≠ '=' := by
  by_cases h : n < 64
  · exact b64CharOf_lt_ne_pad n h
  · unfold b64CharOf
    rw [if_neg (by omega), if_neg (by omega), if_neg (by omega), if_neg (by omega)]
    decide

theorem b64encodeList_eq_nil_iff (bs : List Nat) : b64encodeList bs = [] ↔ bs = [] := by
  match bs with
  | [] => simp [b64encodeList]
  | [a] => simp [b64encodeList]
  | [a, b] => simp [b64encodeList]
  | a :: b :: c :: rest => simp [b64encodeList]

theorem b64_roundtrip :
    ∀ bs : List Nat, (∀ b ∈ bs, b < 256) → b64decodeList (b64encodeList bs) = some bs := by
  intro bs
  induction bs using b64encodeList.induct with
  | case4 => intro _; rfl
  | case3 a =>
    intro h
    have ha : a < 256 := h a (by simp)
    have h1 : b64Val (b64CharOf (a / 4)) = some (a / 4) := b64Val_b64CharOf _ (by omega)
    have h2 : b64Val (b64CharOf ((a % 4) * 16)) = some ((a % 4) * 16) :=
      b64Val_b64CharOf _ (by omega)
    simp [b64encodeList, b64decodeList, h1, h2, b64CharOf_ne_pad]
    all_goals omega
  | case2 a b =>
    intro h
    have ha : a < 256 := h a (by simp)
    have hb : b < 256 := h b (by simp)
    have h1 : b64Val (b64CharOf (a / 4)) = some (a / 4) := b64Val_b64CharOf _ (by omega)
    have h2 : b64Val (b64CharOf ((a % 4) * 16 + b / 16)) = some ((a % 4) * 16 + b / 16) :=
      b64Val_b64CharOf _ (by omega)
    have h3 : b64Val (b64CharOf ((b % 16) * 4)) = some ((b % 16) * 4) :=
      b64Val_b64CharOf _ (by omega)
    simp [b64encodeList, b64decodeList, h1, h2, h3, b64CharOf_ne_pad]
    all_goals omega
  | case1 a b c rest ih =>
    intro h
    have ha : a < 256 := h a (by simp)
    have hb : b < 256 := h b (by simp)
    have hc : c < 256 := h c (by simp)
    have hrest := ih fun x hx => h x (by simp [hx])
    have h1 : b64Val (b64CharOf (a / 4)) = some (a / 4) := b64Val_b64CharOf _ (by omega)
    have h2 : b64Val (b64CharOf ((a % 4) * 16 + b / 16)) = some ((a % 4) * 16 + b / 16) :=
      b64Val_b64CharOf _ (by omega)
    have h3 : b64Val (b64CharOf ((b % 16) * 4 + c / 64)) = some ((b % 16) * 4 + c / 64) :=
      b64Val_b64CharOf _ (by omega)
    have h4 : b64Val (b64CharOf (c % 64)) = some (c % 64) := b64Val_b64CharOf _ (by omega)
    rcases eq_or_ne rest [] with hre | hre
    · subst hre
      simp [b64encodeList, b64decodeList, h1, h2, h3, h4, b64CharOf_ne_pad]
      refine ⟨by omega, by omega, by omega⟩
    · have henc : b64encodeList rest ≠ [] :=
        fun hh => hre ((b64encodeList_eq_nil_iff rest).mp hh)
      have hemp : (b64encodeList rest).isEmpty = false := by
        rw [List.isEmpty_eq_false_iff_exists_mem]
        cases hrl : b64encodeList rest with
        | nil => exact absurd hrl henc
        | cons x xs => exact ⟨x, by simp⟩
      simp [b64encodeList, b64decodeList, hemp, h1, h2, h3, h4, hrest, b64CharOf_ne_pad]
      refine ⟨by omega, by omega, by omega⟩

/-- A structurally valid chunk: 16-byte id and key, with byte-range values
(as produced by `Chunk::random`). -/
def wfChunk (c : Chunk) : Prop :=
  c.id.length = 16 ∧ c.key.length = 16 ∧ (∀ b ∈ c.id, b < 256) ∧ (∀ b ∈ c.key, b < 256)

instance (c : Chunk) : Decidable (wfChunk c) := by
  unfold wfChunk
  infer_instance

theorem b64decode_key_string (c : Chunk) (hb : ∀ b ∈ c.key, b < 256) :
    b64decode c.key_string = some c.key :=
  b64_roundtrip c.key hb

theorem chunk_try_from_intermediate (c : Chunk) (h : wfChunk c) :
    chunk_try_from c.intermediate = .ok c := by
  obtain ⟨h1, h2, h3, h4⟩ := h
  simp [chunk_try_from, Chunk.intermediate, parseUuid_id_string c h1 h3,
    b64decode_key_string c h4, h2]

theorem parseChunkList_map :
    ∀ (cs : List Chunk), (∀ c ∈ cs, wfChunk c) →
      parseChunkList (cs.map Chunk.intermediate) = .ok cs := by
  intro cs
  induction cs with
  | nil => intro _; rfl
  | cons c rest ih =>
    intro h
    have hc := chunk_try_from_intermediate c (h c (List.mem_cons_self c rest))
    have hrest := ih fun x hx => h x (List.mem_cons_of_mem _ hx)
    simp [parseChunkList, hc, hrest]

/-- C6: for every structurally valid metadata value, parsing the serialized
text form recovers it exactly — `file_len` and `chunk_len` unchanged, every
segment's id and key recovered exactly, order preserved. -/
theorem c6_metadata_roundtrip (m : Metadata) (h : ∀ c ∈ m.chunks, wfChunk c) :
    MetadataText.parse m.serialize = .ok m := by
  simp [MetadataText.parse, Metadata.serialize, parseChunkList_map m.chunks h]

set_option maxRecDepth 8000 in
theorem c6_witness :
    (∀ c ∈ (Metadata.mk 55 32 [chunkOfIdx 0, chunkOfIdx 9]).chunks, wfChunk c) ∧
      MetadataText.parse (Metadata.serialize ⟨55, 32, [chunkOfIdx 0, chunkOfIdx 9]⟩) =
        .ok ⟨55, 32, [chunkOfIdx 0, chunkOfIdx 9]⟩ :=
  ⟨by decide, c6_metadata_roundtrip ⟨55, 32, [chunkOfIdx 0, chunkOfIdx 9]⟩ (by decide)⟩

/-- C9 counterexample: a key text that is valid base64 but decodes to a
length other than 16 ("AAAA" decodes to three zero bytes) does not produce a
recoverable decode error — `Key::from_slice` panics on the length
mismatch. -/
theorem c9_counterexample :
    b64decode ("AAAA") = some [0, 0, 0] ∧
      chunk_try_from ⟨"00000000000000000000000000000001", "AAAA"⟩ = Outcome.panic := by
  constructor <;> decide

/-- C9 (amended): metadata parsing fails with a recoverable decode error for
an id text in no accepted uuid form (`malformed ID`) and for a key text that
is not valid base64 (`malformed key`); a key that is valid base64 of the
wrong decoded length, however, panics rather than erring. -/
theorem c9_malformed_text_errors (ids ks : String) :
    (parseUuid ids = none → chunk_try_from ⟨ids, ks⟩ = .err .malformedId) ∧
      (∀ idb : List Nat, parseUuid ids = some idb → b64decode ks = none →
        chunk_try_from ⟨ids, ks⟩ = .err .malformedKey) := by
  constructor
  · intro h
    simp [chunk_try_from, h]
  · intro idb h1 h2
    simp [chunk_try_from, h1, h2]

theorem c9_witness :
    parseUuid ("zz") = none ∧
      chunk_try_from ⟨"zz", "AAAAAAAAAAAAAAAAAAAAAA=="⟩ = .err .malformedId ∧
      parseUuid ("00000000000000000000000000000002") =
        some [0, 0, 0, 0, 0, 0, 0, 0, 0, 0, 0, 0, 0, 0, 0, 2] ∧
      b64decode ("!!!!") = none ∧
      chunk_try_from ⟨"00000000000000000000000000000002", "!!!!"⟩ = .err .malformedKey :=
  ⟨by decide,
    (c9_malformed_text_errors ("zz") ("AAAAAAAAAAAAAAAAAAAAAA==")).1 (by decide),
    by decide, by decide,
    (c9_malformed_text_errors ("00000000000000000000000000000002") ("!!!!")).2
      [0, 0, 0, 0, 0, 0, 0, 0, 0, 0, 0, 0, 0, 0, 0, 2] (by decide) (by decide)⟩

set_option maxRecDepth 16000 in
/-- C1: the round trip fails on the code.  `check_num_chunks` expects
`(file_len + chunk_len - 16) / (chunk_len - 16)` segments, which disagrees
with the count encryption produces: a 16-byte file encrypted unchunked
yields one segment but decryption expects two, and a 100-byte file encrypted
with `chunk_len = 32` yields four segments but decryption expects seven, so
`decrypt_file` rejects the very metadata `encrypt_file` returned — with the
ciphertext objects it wrote supplied unchanged — instead of reproducing the
original bytes. -/
theorem c1_roundtrip_rejected :
    (encrypt_file_unchunked (List.replicate 16 9) chunkOfIdx).1 =
        Outcome.ok ⟨16, 32, [chunkOfIdx 0]⟩ ∧
      decrypt_file (storeOfEvents (encrypt_file_unchunked (List.replicate 16 9) chunkOfIdx).2)
          ⟨16, 32, [chunkOfIdx 0]⟩ =
        (.err (.numChunksMismatch 2 1), []) ∧
      (encrypt_file (List.replicate 100 7) chunkOfIdx 32).1 =
        Outcome.ok ⟨100, 32, (List.range 4).map chunkOfIdx⟩ ∧
      decrypt_file (storeOfEvents (encrypt_file (List.replicate 100 7) chunkOfIdx 32).2)
          ⟨100, 32, (List.range 4).map chunkOfIdx⟩ =
        (.err (.numChunksMismatch 7 4), []) := by
  refine ⟨by decide, by decide, by decide, by decide⟩
